import Mathlib

/-!
Verification of the GroundMaster ground-staff scheduler.

This file gives a shallow embedding of the scheduler's data model and of the
pure parts of its algorithms (time-expression resolution, eligibility
predicates, allocation-plan persistence, constraint emission, overlap
detection), translated from the Python sources under `scheduler/`, and proves
or refutes the specification claims about them.

Modelling conventions:
* `datetime` values parsed from "HH:MM" are modelled as `Int` minutes since
  midnight; `timedelta(minutes=k)` is addition of `k`.
* Python `str` values are `String` (or `List Char` where character-level
  operations matter).
* Python's `str`/`int` conversions on integers are modelled by a decimal
  printer (`natToDec`, `pyIntToStr`) and parser (`decToNat?`, `pyIntOfChars`);
  the parser accepts an optional sign followed by decimal digits, which is the
  fragment of Python `int()` exercised here.
* Python `dict`s are insertion-ordered association lists; `d[k] = v` is
  `dictSet`, `d.get(k, d0)` is `lookupD` with a default.
* Code that raises an exception is modelled with `Option` (`none` = raise).
-/

namespace GroundMaster

/-! ## Decimal printing and parsing (Python `str` / `int` on integers) -/

/-- The decimal digit character for `d ≤ 9` (as produced by Python `str`). -/
def digitChar (d : Nat) : Char :=
  match d with
  | 0 => '0' | 1 => '1' | 2 => '2' | 3 => '3' | 4 => '4'
  | 5 => '5' | 6 => '6' | 7 => '7' | 8 => '8' | _ => '9'

/-- Decimal digits of `n`, most significant first (Python `str(n)` for `n : Nat`). -/
def natToDec (n : Nat) : List Char :=
  if _h : n < 10 then [digitChar n]
  else natToDec (n / 10) ++ [digitChar (n % 10)]
termination_by n
decreasing_by exact Nat.div_lt_self (by omega) (by omega)

/-- Python `str(i)` for an integer `i`: optional minus sign then decimal digits. -/
def pyIntToStr (i : Int) : String :=
  if i < 0 then ⟨'-' :: natToDec i.natAbs⟩ else ⟨natToDec i.natAbs⟩

/-- Value of a digit string read left to right. -/
def digitsVal (cs : List Char) : Nat :=
  cs.foldl (fun acc c => 10 * acc + (c.toNat - 48)) 0

/-- Python `int()` on an unsigned digit string: every character must be a
digit and the string must be non-empty, else a `ValueError` (`none`). -/
def decToNat? (cs : List Char) : Option Nat :=
  if cs ≠ [] ∧ cs.all Char.isDigit then some (digitsVal cs) else none

/-- Python `int()` on a string: an optional `+`/`-` sign then decimal digits.
(`int("")` and `int("-")`/`int("+")` raise, via `decToNat?` on `[]`.) -/
def pyIntOfChars : List Char → Option Int
  | [] => none
  | c :: cs =>
    if c = '-' then (decToNat? cs).map (fun n => -(n : Int))
    else if c = '+' then (decToNat? cs).map (fun n => (n : Int))
    else (decToNat? (c :: cs)).map (fun n => (n : Int))

/-- Python `int()` on a `String`. -/
def pyIntOfStr (s : String) : Option Int := pyIntOfChars s.data

/-! ## Time model: `Flight.get_service_time` / `resolve_time`
(`scheduler/models/flight.py`, identical logic in `scheduler/models.py`) -/

/-- `resolve_time` from `Flight.get_service_time`: a string starting with `A`
(resp. `D`) resolves against the arrival (resp. departure) time; if the string
contains `+` (checked first) or `-`, the slice from index 2 is parsed as an
integer offset in minutes; otherwise the base time itself is returned.
Any other string raises `ValueError` (`none`). -/
def resolveChars (arrival departure : Int) : List Char → Option Int
  | [] => none
  | c :: rest =>
    if c = 'A' ∨ c = 'D' then
      if (c :: rest).contains '+' then
        (pyIntOfChars ((c :: rest).drop 2)).map
          (fun k => (if c = 'A' then arrival else departure) + k)
      else if (c :: rest).contains '-' then
        (pyIntOfChars ((c :: rest).drop 2)).map
          (fun k => (if c = 'A' then arrival else departure) - k)
      else some (if c = 'A' then arrival else departure)
    else none

/-- The documented grammar of service-time expressions:
`expr := "A" | "D" | ("A"|"D") ("+"|"-") [0-9]+`. -/
def inGrammar : List Char → Bool
  | [c] => c = 'A' || c = 'D'
  | c :: s :: rest =>
      (c = 'A' || c = 'D') && (s = '+' || s = '-') &&
      (!rest.isEmpty && rest.all Char.isDigit)
  | _ => false

/-- The timestamp the grammar assigns to a well-formed expression
(written from the specification's words, for comparison with `resolveChars`). -/
def grammarVal (arrival departure : Int) : List Char → Int
  | [c] => if c = 'A' then arrival else departure
  | c :: s :: rest =>
      let base := if c = 'A' then arrival else departure
      if s = '+' then base + digitsVal rest else base - digitsVal rest
  | _ => 0

/-! ## Entity model (`scheduler/models/`) -/

inductive ServiceType
  | FLIGHT_LEVEL | COMMON_LEVEL | MULTI_FLIGHT
deriving DecidableEq, Repr

inductive CertificationRequirement
  | ALL | ANY
deriving DecidableEq, Repr

structure Service where
  id : Int
  name : String
  certifications : List Int
  certificationRequirement : CertificationRequirement
  type : ServiceType
  crossUtilizationLimit : Int
  excludeServices : List Int
deriving Repr, DecidableEq

/-- A `FlightService` (`start`/`end` are relative time-expression strings;
`end` is renamed `endExpr` because it is a Lean keyword). -/
structure FlightService where
  id : Int
  count : Int
  startExpr : List Char
  endExpr : List Char
deriving Repr, DecidableEq

structure Flight where
  number : String
  arrivalTime : Int
  departureTime : Int
  bayNumber : String
  flightServices : List FlightService
deriving Repr, DecidableEq

structure Shift where
  startT : Int
  endT : Int
deriving Repr, DecidableEq

structure Staff where
  id : Int
  name : String
  certifications : List Int
  shifts : List Shift
deriving Repr, DecidableEq

structure Bay where
  number : String
  travelTime : List (String × Int)
deriving Repr, DecidableEq

/-- `Settings` (`scheduler/models/settings.py`) with its default field values. -/
structure Settings where
  overlapToleranceBuffer : Int := 15
  defaultTravelTime : Int := 5
  maxRetries : Int := 3
deriving Repr, DecidableEq

/-- `Flight.get_service_time`: resolve both endpoints of a service window. -/
def getServiceTime (f : Flight) (fs : FlightService) : Option (Int × Int) :=
  match resolveChars f.arrivalTime f.departureTime fs.startExpr,
        resolveChars f.arrivalTime f.departureTime fs.endExpr with
  | some a, some b => some (a, b)
  | _, _ => none

/-! ## Eligibility predicates (`scheduler/models/staff.py`) -/

/-- `Staff.is_available_for_service`: some shift fully covers the window. -/
def isAvailableForService (st : Staff) (serviceStart serviceEnd : Int) : Bool :=
  st.shifts.any fun sh =>
    decide (sh.startT ≤ serviceStart) && decide (serviceEnd ≤ sh.endT)

/-- `Staff.can_perform_service`: ALL ⇒ every required certification held,
ANY ⇒ at least one held.  (The trailing `return False` in the source is
unreachable: `CertificationRequirement` has exactly these two members.) -/
def canPerformService (st : Staff) (s : Service) : Bool :=
  match s.certificationRequirement with
  | CertificationRequirement.ALL =>
      s.certifications.all fun cert => st.certifications.contains cert
  | CertificationRequirement.ANY =>
      s.certifications.any fun cert => st.certifications.contains cert

/-! ## Allocation plans (`scheduler/plans/allocation_plan.py`)

Python dicts are modelled as insertion-ordered association lists. -/

abbrev StaffDict := List (Int × Bool)
abbrev ServiceDict := List (Int × StaffDict)
abbrev Alloc := List (String × ServiceDict)

/-- Python `d.get(k)` / `d[k]` lookup over an association list. -/
def lookupD {κ β : Type} [DecidableEq κ] (l : List (κ × β)) (k : κ) : Option β :=
  (l.find? (fun e => decide (e.1 = k))).map Prod.snd

/-- Python `d[k] = v`: replace the value in place if the key is present,
append a new entry otherwise. -/
def dictSet {κ β : Type} [DecidableEq κ] (l : List (κ × β)) (k : κ) (v : β) :
    List (κ × β) :=
  if l.any (fun e => decide (e.1 = k)) then
    l.map (fun e => if e.1 = k then (k, v) else e)
  else l ++ [(k, v)]

/-- `AllocationPlan.add_allocation`: initialise missing levels with `{}` and
set the staff entry. -/
def addAllocation (p : Alloc) (f : String) (s staffId : Int) (v : Bool) : Alloc :=
  let fl := (lookupD p f).getD []
  let sv := (lookupD fl s).getD []
  dictSet p f (dictSet fl s (dictSet sv staffId v))

/-- `AllocationPlan.get_allocation` (the `plans/` version): nested `.get` with
default `{}` at the outer levels and default `False` at the leaf. -/
def getAllocation (p : Alloc) (f : String) (s staffId : Int) : Bool :=
  (lookupD ((lookupD ((lookupD p f).getD []) s).getD []) staffId).getD false

/-- The JSON value produced by `serialize` (`json.dumps` stringifies the
integer keys; the JSON library's text encoding itself is external). -/
abbrev JsonStaff := List (String × Bool)
abbrev JsonServices := List (String × JsonStaff)
abbrev JsonAlloc := List (String × JsonServices)

/-- `AllocationPlan.serialize`, up to the external JSON text encoding:
flight-number keys stay strings, integer keys become their decimal strings. -/
def serializeObj (p : Alloc) : JsonAlloc :=
  p.map fun fe =>
    (fe.1, fe.2.map fun se =>
      (pyIntToStr se.1, se.2.map fun te => (pyIntToStr te.1, te.2)))

/-- `AllocationPlan.deserialize`, innermost loop: coerce a staff key with
`int()` and store the boolean (a key `int()` rejects raises, i.e. `none`). -/
def deserStaffStep (accT : StaffDict) (te : String × Bool) : Option StaffDict :=
  (pyIntOfStr te.1).bind fun tid => some (dictSet accT tid te.2)

/-- `AllocationPlan.deserialize`, middle loop: coerce a service key with
`int()` and rebuild that service's staff dictionary from scratch. -/
def deserServicesStep (accS : ServiceDict) (se : String × JsonStaff) :
    Option ServiceDict :=
  (pyIntOfStr se.1).bind fun sid =>
    (se.2.foldlM deserStaffStep []).bind fun st => some (dictSet accS sid st)

/-- `AllocationPlan.deserialize`, outer loop: rebuild one flight's entry from
scratch, leaving the entries of other flights untouched. -/
def deserAllocStep (acc : Alloc) (fe : String × JsonServices) : Option Alloc :=
  (fe.2.foldlM deserServicesStep []).bind fun inner => some (dictSet acc fe.1 inner)

/-- `AllocationPlan.deserialize`: for each top-level flight key, rebuild that
flight's entry, coercing service and staff keys back to integers with
`int()`; other flights' entries are left untouched. -/
def deserializeAlloc (p : Alloc) (j : JsonAlloc) : Option Alloc :=
  j.foldlM deserAllocStep p

/-- A plan built from a sequence of `add_allocation` calls, starting empty. -/
def buildPlan (l : List (String × Int × Int × Bool)) : Alloc :=
  l.foldl (fun p q => addAllocation p q.1 q.2.1 q.2.2.1 q.2.2.2) []

/-- Well-formedness of the nested dictionaries: keys are distinct at every
level (true of every Python dict, and preserved by `add_allocation`). -/
def wfStaff (t : StaffDict) : Prop := (t.map Prod.fst).Nodup

def wfServices (sv : ServiceDict) : Prop :=
  (sv.map Prod.fst).Nodup ∧ ∀ e ∈ sv, wfStaff e.2

def wfAlloc (p : Alloc) : Prop :=
  (p.map Prod.fst).Nodup ∧ ∀ e ∈ p, wfServices e.2

/-! ## Constraint emission (`scheduler/core/scheduler.py`)

A decision variable is keyed by `(flight.number, service id, staff.id)`.  An
emitted constraint `Σ keys ≤ bound` is recorded as a `LinLe`; a solution is a
boolean valuation of the keys, and satisfaction counts the true keys. -/

abbrev XKey := String × Int × Int

structure LinLe where
  keys : List XKey
  bound : Int
deriving Repr, DecidableEq

/-- A valuation satisfies `Σ keys ≤ bound` iff the number of true keys is at
most the bound. -/
abbrev satLin (v : XKey → Bool) (c : LinLe) : Prop :=
  ((c.keys.countP v : Int) ≤ c.bound)

/-- The flight-level (`F`) services of a flight (`flight_level_services`). -/
def flightLevelServices (sm : Int → Service) (f : Flight) : List FlightService :=
  f.flightServices.filter fun fs =>
    decide ((sm fs.id).type = ServiceType.FLIGHT_LEVEL)

/-- `add_flight_level_service_constraints`, exclusion part: for every ordered
pair `(b, a)` of flight-level services with `a.id ∈ service(b).exclude_services`,
emit `x_a + x_b ≤ 1`. -/
def excludeConstraints (sm : Int → Service) (fnum : String) (staffId : Int)
    (fls : List FlightService) : List LinLe :=
  fls.flatMap fun b =>
    (fls.filter fun a => decide (a.id ∈ (sm b.id).excludeServices)).map fun a =>
      ⟨[(fnum, a.id, staffId), (fnum, b.id, staffId)], 1⟩

/-- `add_flight_level_service_constraints`, cross-utilization part.  In the
source the `for flight_level_service in flight_level_services:` loop body only
rebinds the loop variable; the block computing `other_service_vars` and adding
the constraint is indented at the enclosing level, so it executes once after
the loop with the loop variable holding the *last* flight-level service.  The
emission below reproduces that: at most one constraint, for the last service. -/
def crossUtilConstraints (sm : Int → Service) (fnum : String) (staffId : Int)
    (fls : List FlightService) : List LinLe :=
  match fls.getLast? with
  | none => []
  | some lastS =>
    let others := fls.filter fun o =>
      decide (o.id ≠ lastS.id) &&
      decide (lastS.id ∉ (sm o.id).excludeServices) &&
      decide (o.id ∉ (sm lastS.id).excludeServices)
    if others.isEmpty then []
    else [⟨(fnum, lastS.id, staffId) :: others.map (fun o => (fnum, o.id, staffId)),
          (sm lastS.id).crossUtilizationLimit⟩]

/-- All constraints emitted by `add_flight_level_service_constraints`. -/
def flightLevelConstraints (sm : Int → Service) (flights : List Flight)
    (roster : List Staff) : List LinLe :=
  flights.flatMap fun f =>
    roster.flatMap fun st =>
      excludeConstraints sm f.number st.id (flightLevelServices sm f) ++
      crossUtilConstraints sm f.number st.id (flightLevelServices sm f)

/-- The quantity bounded by the claimed cross-utilization invariant: the
number of flight-level services the staff holds on the flight that are
mutually non-excluding with `s`, including `s` itself. -/
def compatibleHeldCount (sm : Int → Service) (fnum : String) (staffId : Int)
    (fls : List FlightService) (s : FlightService) (v : XKey → Bool) : Nat :=
  ((s :: fls.filter fun o =>
      decide (o.id ≠ s.id) &&
      decide (s.id ∉ (sm o.id).excludeServices) &&
      decide (o.id ∉ (sm s.id).excludeServices)).map
    fun o => ((fnum, o.id, staffId) : XKey)).countP v

/-- Shared shape of `add_common_level_service_constraints` and step 1 of
`add_multiflight_service_constraints` (the two source functions are identical
up to the category): per `(flight, staff)`, the sum of the category's
variables is at most one, and each (category, other-category) pair of
variables sums to at most one. -/
def categorySinglenessConstraints (sm : Int → Service) (ty : ServiceType)
    (flights : List Flight) (roster : List Staff) : List LinLe :=
  flights.flatMap fun f =>
    roster.flatMap fun st =>
      (⟨(f.flightServices.filter fun fs => decide ((sm fs.id).type = ty)).map
          (fun fs => ((f.number, fs.id, st.id) : XKey)), 1⟩ : LinLe) ::
      ((f.flightServices.filter fun fs => decide ((sm fs.id).type = ty)).flatMap
        fun fs =>
          (f.flightServices.filter fun fs2 =>
              decide (¬ (sm fs2.id).type = ty)).map fun fs2 =>
            (⟨[(f.number, fs.id, st.id), (f.number, fs2.id, st.id)], 1⟩ : LinLe))

/-- `add_common_level_service_constraints`. -/
def commonLevelConstraints (sm : Int → Service) (flights : List Flight)
    (roster : List Staff) : List LinLe :=
  categorySinglenessConstraints sm ServiceType.COMMON_LEVEL flights roster

/-- `add_multiflight_service_constraints`, step 1 (intra-flight). -/
def multiFlightIntraConstraints (sm : Int → Service) (flights : List Flight)
    (roster : List Staff) : List LinLe :=
  categorySinglenessConstraints sm ServiceType.MULTI_FLIGHT flights roster

/-- Insertion-ordered grouping (`staff_multiflight_assignments`): append the
variable to the entry for `k`, creating the entry at the end if absent. -/
def upsertAppend (acc : List (Int × List XKey)) (k : Int) (x : XKey) :
    List (Int × List XKey) :=
  if acc.any (fun e => decide (e.1 = k)) then
    acc.map fun e => if e.1 = k then (e.1, e.2 ++ [x]) else e
  else acc ++ [(k, [x])]

/-- One flight's contribution to a staff's multi-flight groups (the inner
loops of `add_multiflight_service_constraints`, step 2). -/
def mfServiceFold (sm : Int → Service) (staffId : Int) (fnum : String)
    (l : List FlightService) (acc : List (Int × List XKey)) :
    List (Int × List XKey) :=
  l.foldl (fun acc2 fs =>
    if (sm fs.id).type = ServiceType.MULTI_FLIGHT then
      upsertAppend acc2 fs.id (fnum, fs.id, staffId)
    else acc2) acc

/-- The flight loop of `add_multiflight_service_constraints`, step 2, with an
explicit accumulator. -/
def mfFlightsFold (sm : Int → Service) (staffId : Int) (flights : List Flight)
    (acc : List (Int × List XKey)) : List (Int × List XKey) :=
  flights.foldl (fun acc2 f => mfServiceFold sm staffId f.number f.flightServices acc2) acc

/-- `staff_multiflight_assignments[staff.id]`: for one staff member, the
multi-flight variables grouped by service id, in first-occurrence order. -/
def multiFlightGroups (sm : Int → Service) (flights : List Flight)
    (staffId : Int) : List (Int × List XKey) :=
  mfFlightsFold sm staffId flights []

/-- Cross-flight constraints over the indicator variables `y_m`
(one per (staff, multi-flight service id)). -/
inductive MFCon where
  | yLe (ys : List (Int × Int)) (bound : Int)
  | xGeOneIfY (y : Int × Int) (ks : List XKey)
  | xEqZeroIfNotY (y : Int × Int) (ks : List XKey)
deriving Repr, DecidableEq

/-- Satisfaction of a cross-flight constraint by valuations `v` (decision
variables) and `w` (indicators): `Σ y ≤ bound`; `Σ X_m ≥ 1` enforced when
`y_m`; `Σ X_m = 0` enforced when `¬ y_m`. -/
def satMF (v : XKey → Bool) (w : Int × Int → Bool) : MFCon → Prop
  | MFCon.yLe ys b => ((ys.countP w : Int) ≤ b)
  | MFCon.xGeOneIfY y ks => w y = true → 1 ≤ ks.countP v
  | MFCon.xEqZeroIfNotY y ks => w y = false → ks.countP v = 0

instance satMF.instDec (v : XKey → Bool) (w : Int × Int → Bool) (c : MFCon) :
    Decidable (satMF v w c) := by
  cases c <;> simp only [satMF] <;> infer_instance

/-- `add_multiflight_service_constraints`, steps 2–3, for one staff member:
`Σ_m y_m ≤ 1`, and for each group `m`: `Σ X_m ≥ 1 ⇔ y_m`. -/
def multiFlightCrossConstraints (sm : Int → Service) (flights : List Flight)
    (staffId : Int) : List MFCon :=
  MFCon.yLe ((multiFlightGroups sm flights staffId).map fun g => (staffId, g.1)) 1 ::
  (multiFlightGroups sm flights staffId).flatMap fun g =>
    [MFCon.xGeOneIfY (staffId, g.1) g.2, MFCon.xEqZeroIfNotY (staffId, g.1) g.2]

/-- The cross-flight multi-flight constraints for the whole roster. -/
def multiFlightAllCrossConstraints (sm : Int → Service) (flights : List Flight)
    (roster : List Staff) : List MFCon :=
  roster.flatMap fun st => multiFlightCrossConstraints sm flights st.id

/-! ### Concrete instance exhibiting the cross-utilization indentation bug -/

/-- Service catalog for the C1 failing input: three flight-level services with
no exclusions; service 1 has `cross_utilization_limit = 1`, services 2 and 3
have limit 3. -/
def smC1 : Int → Service := fun i =>
  if i = 1 then ⟨1, "S1", [], CertificationRequirement.ALL,
    ServiceType.FLIGHT_LEVEL, 1, []⟩
  else if i = 2 then ⟨2, "S2", [], CertificationRequirement.ALL,
    ServiceType.FLIGHT_LEVEL, 3, []⟩
  else ⟨3, "S3", [], CertificationRequirement.ALL,
    ServiceType.FLIGHT_LEVEL, 3, []⟩

/-- The C1 failing flight: DL1 listing services 1, 2, 3. -/
def flC1 : Flight :=
  ⟨"DL1", 300, 400, "A1",
   [⟨1, 2, ['A'], ['D']⟩, ⟨2, 2, ['A'], ['D']⟩, ⟨3, 2, ['A'], ['D']⟩]⟩

/-- The C1 staff member (id 7, no certifications needed, on duty all day). -/
def stC1 : Staff := ⟨7, "W", [], [⟨0, 1440⟩]⟩

/-- A valuation assigning staff 7 services 1 and 2 on DL1 and nothing else. -/
def vC1 : XKey → Bool := fun k =>
  decide (k = ("DL1", 1, 7)) || decide (k = ("DL1", 2, 7))

/-! ## Travel times and overlap detection
(`Scheduler.__init__`, `get_overlapping_flights_map`; the same logic lives in
`services/overlap_detection_service.py`) -/

/-- The `travel_time_map` of `Scheduler.__init__` combined with its
`.get((bay_a, bay_b), 0)` consumers: the precomputed dict has an entry exactly
for ordered pairs of known bays, valued `bays[a].travel_time.get(b, 0)`; any
other pair falls back to `0`.  (Bay numbers are unique per the input
invariant, so first-match lookup agrees with the Python dict.) -/
def travelTimeLookup (bays : List Bay) (a b : String) : Int :=
  if (bays.any fun bay => decide (bay.number = a)) &&
     (bays.any fun bay => decide (bay.number = b)) then
    match bays.find? (fun bay => decide (bay.number = a)) with
    | some bay => (lookupD bay.travelTime b).getD 0
    | none => 0
  else 0

/-- The non-MultiFlight services of a flight, excluded from overlap anchors
because multi-flight services may span flights. -/
def nonMFServices (sm : Int → Service) (f : Flight) : List FlightService :=
  f.flightServices.filter fun fs =>
    decide (¬ (sm fs.id).type = ServiceType.MULTI_FLIGHT)

/-- Maximum of a list of minutes; the default is used only for `[]`, which the
callers rule out. -/
def maxOfList (d : Int) : List Int → Int
  | [] => d
  | x :: t => t.foldl max x

/-- Minimum of a list of minutes; the default is used only for `[]`. -/
def minOfList (d : Int) : List Int → Int
  | [] => d
  | x :: t => t.foldl min x

/-- `a_services_end`: the latest end of the flight's non-MultiFlight service
windows, or the departure time if there are none; `none` models the
`ValueError` raised on a malformed time expression. -/
def latestServiceEnd (sm : Int → Service) (f : Flight) : Option Int :=
  match nonMFServices sm f with
  | [] => some f.departureTime
  | l => (l.mapM (getServiceTime f)).map fun ps =>
      maxOfList f.departureTime (ps.map Prod.snd)

/-- `b_services_start`: the earliest start of the flight's non-MultiFlight
service windows, or the arrival time if there are none. -/
def earliestServiceStart (sm : Int → Service) (f : Flight) : Option Int :=
  match nonMFServices sm f with
  | [] => some f.arrivalTime
  | l => (l.mapM (getServiceTime f)).map fun ps =>
      minOfList f.arrivalTime (ps.map Prod.fst)

/-- `required_gap = max(travel_time - overlap_tolerance_buffer, 0)`. -/
def requiredGap (bays : List Bay) (buffer : Int) (a b : Flight) : Int :=
  max (travelTimeLookup bays a.bayNumber b.bayNumber - buffer) 0

/-- The overlap condition of `get_overlapping_flights_map`:
`latest_end(A) + required_gap > earliest_start(B)`. -/
def conflictCond (sm : Int → Service) (bays : List Bay) (buffer : Int)
    (a b : Flight) : Option Bool :=
  match latestServiceEnd sm a, earliestServiceStart sm b with
  | some ae, some bs => some (decide (ae + requiredGap bays buffer a b > bs))
  | _, _ => none

/-- The inner sweep over the flights after `A` (`for j in range(i+1, …)`),
with `A`'s anchor `ae` precomputed: collect conflicting successors and `break`
at the first non-conflicting one. -/
def innerSweep (sm : Int → Service) (bays : List Bay) (buffer : Int)
    (a : Flight) (ae : Int) : List Flight → Option (List String)
  | [] => some []
  | b :: t =>
    match earliestServiceStart sm b with
    | none => none
    | some bs =>
      if ae + requiredGap bays buffer a b > bs then
        (innerSweep sm bays buffer a ae t).map fun l => b.number :: l
      else some []

/-- The outer sweep of `get_overlapping_flights_map` over the arrival-sorted
flights.  (The Python `defaultdict` only materialises keys with a non-empty
list; consumers read it with `.get(flight, [])`, so carrying every flight with
a possibly-empty list is the same map.) -/
def sweep (sm : Int → Service) (bays : List Bay) (buffer : Int) :
    List Flight → Option (List (String × List String))
  | [] => some []
  | a :: rest =>
    match latestServiceEnd sm a with
    | none => none
    | some ae =>
      match innerSweep sm bays buffer a ae rest, sweep sm bays buffer rest with
      | some l, some m => some ((a.number, l) :: m)
      | _, _ => none

/-- Stable insertion of a flight into an arrival-sorted list (a later element
goes after every earlier element with arrival ≤ its own). -/
def insertByArrival (f : Flight) : List Flight → List Flight
  | [] => [f]
  | g :: t =>
    if f.arrivalTime < g.arrivalTime then f :: g :: t
    else g :: insertByArrival f t

/-- `sorted(flights, key=arrival_time)`: the stable ascending permutation,
computed by stable insertion sort. -/
def sortByArrival (flights : List Flight) : List Flight :=
  flights.foldl (fun acc f => insertByArrival f acc) []

/-- `get_overlapping_flights_map`. -/
def detectOverlaps (sm : Int → Service) (bays : List Bay) (buffer : Int)
    (flights : List Flight) : Option (List (String × List String)) :=
  sweep sm bays buffer (sortByArrival flights)

/-! ### Concrete instances for the overlap counterexample and travel default -/

/-- Catalog for the C2 counterexample: every service is flight-level. -/
def smC2 : Int → Service := fun _ =>
  ⟨1, "S", [], CertificationRequirement.ALL, ServiceType.FLIGHT_LEVEL, 1, []⟩

/-- One bay, so all travel times are the missing-entry fallback `0`. -/
def baysC2 : List Bay := [⟨"A1", []⟩]

/-- Flight FA: arrival 300, service window `A … A+60` (ends 360). -/
def faC2 : Flight := ⟨"FA", 300, 360, "A1", [⟨1, 1, ['A'], ['A', '+', '6', '0']⟩]⟩

/-- Flight FB: arrival 330, service window `D … D+10` (starts 420). -/
def fbC2 : Flight := ⟨"FB", 330, 420, "A1", [⟨1, 1, ['D'], ['D', '+', '1', '0']⟩]⟩

/-- Flight FC: arrival 345, service window `A-60 … A` (starts 285). -/
def fcC2 : Flight :=
  ⟨"FC", 345, 400, "A1", [⟨1, 1, ['A', '-', '6', '0'], ['A']⟩]⟩

/-- Bays for the C3 failing input: `A1` knows a time to `A2` but none to `B1`. -/
def baysC3 : List Bay := [⟨"A1", [("A2", 7)]⟩, ⟨"A2", []⟩, ⟨"B1", []⟩]

/-- A `Settings()` value constructed with all defaults. -/
def defaultSettings : Settings := {}

/-! ### Concrete witness instance for multi-flight consistency -/

/-- Catalog for the C4 witness: a single multi-flight service, id 9. -/
def smC4 : Int → Service := fun _ =>
  ⟨9, "GPU", [], CertificationRequirement.ALL, ServiceType.MULTI_FLIGHT, 1, []⟩

/-- The C4 witness flights: DL1 and DL2, each requiring service 9. -/
def f1C4 : Flight := ⟨"DL1", 300, 400, "A1", [⟨9, 1, ['A'], ['D']⟩]⟩

def f2C4 : Flight := ⟨"DL2", 500, 600, "A1", [⟨9, 1, ['A'], ['D']⟩]⟩

/-- The C4 witness staff member. -/
def stC4 : Staff := ⟨5, "W", [], [⟨0, 1440⟩]⟩

/-- Valuation assigning service 9 to staff 5 on both flights. -/
def vC4 : XKey → Bool := fun k =>
  decide (k = ("DL1", 9, 5)) || decide (k = ("DL2", 9, 5))

/-- Indicator valuation: staff 5 is pinned to multi-flight service 9. -/
def wC4 : Int × Int → Bool := fun y => decide (y = (5, 9))

/-! ### Concrete witness instance for category singleness -/

/-- Catalog for the C5 witness: service 1 is common-level, everything else
flight-level. -/
def smC5 : Int → Service := fun i =>
  if i = 1 then ⟨1, "Fueling", [], CertificationRequirement.ALL,
    ServiceType.COMMON_LEVEL, 1, []⟩
  else ⟨2, "Cleaning", [], CertificationRequirement.ALL,
    ServiceType.FLIGHT_LEVEL, 2, []⟩

/-- The C5 witness flight: DL1 with services 1 (common-level) and 2. -/
def flC5 : Flight := ⟨"DL1", 300, 400, "A1", [⟨1, 1, ['A'], ['D']⟩, ⟨2, 1, ['A'], ['D']⟩]⟩

/-- The C5 witness staff member. -/
def stC5 : Staff := ⟨5, "W", [], [⟨0, 1440⟩]⟩

/-- Valuation assigning only the common-level service 1 to staff 5 on DL1. -/
def vC5 : XKey → Bool := fun k => decide (k = ("DL1", 1, 5))

/-! ## Theorems -/

/-- Characters of a digit string are neither sign character. -/
theorem digit_ne_plus {c : Char} (h : c.isDigit = true) : c ≠ '+' := by
  intro heq; rw [heq] at h; exact absurd h (by decide)

theorem digit_ne_minus {c : Char} (h : c.isDigit = true) : c ≠ '-' := by
  intro heq; rw [heq] at h; exact absurd h (by decide)

theorem contains_plus_eq_false {l : List Char} (h : l.all Char.isDigit = true) :
    l.contains '+' = false := by
  rw [List.contains, List.elem_eq_mem, decide_eq_false_iff_not]
  intro hmem
  exact digit_ne_plus (by rw [List.all_eq_true] at h; exact h _ hmem) rfl

theorem contains_minus_eq_false {l : List Char} (h : l.all Char.isDigit = true) :
    l.contains '-' = false := by
  rw [List.contains, List.elem_eq_mem, decide_eq_false_iff_not]
  intro hmem
  exact digit_ne_minus (by rw [List.all_eq_true] at h; exact h _ hmem) rfl

/-- On a non-empty digit string, the modelled Python `int()` succeeds with the
digit value. -/
theorem pyIntOfChars_digits {l : List Char} (hne : l ≠ [])
    (h : l.all Char.isDigit = true) :
    pyIntOfChars l = some (digitsVal l) := by
  match l, hne with
  | c :: cs, _ =>
    have hc : c.isDigit = true := by
      rw [List.all_eq_true] at h; exact h _ (List.mem_cons_self _ _)
    have h1 : c ≠ '-' := digit_ne_minus hc
    have h2 : c ≠ '+' := digit_ne_plus hc
    rw [pyIntOfChars, if_neg h1, if_neg h2, decToNat?, if_pos ⟨by simp, h⟩]
    rfl

/-- **C6 (amended)**: time-expression resolution is total on the grammar — for
every expression of the documented grammar `A | D | (A|D)(+|-)[0-9]+`,
`resolve` returns the timestamp the grammar assigns to it.  (The converse of
the original claim is false: see `c6_counterexample`.) -/
theorem c6_resolve_total_on_grammar (arrival departure : Int) (cs : List Char)
    (h : inGrammar cs = true) :
    resolveChars arrival departure cs = some (grammarVal arrival departure cs) := by
  match cs with
  | [] => exact absurd h (by decide)
  | [c] =>
    rw [inGrammar] at h
    rw [show ((c = 'A' || c = 'D') = true) ↔ (c = 'A' ∨ c = 'D') by simp] at h
    have hplus : ([c].contains '+') = false := by
      rcases h with h | h <;> subst h <;> decide
    have hminus : ([c].contains '-') = false := by
      rcases h with h | h <;> subst h <;> decide
    rw [resolveChars, if_pos h, hplus]
    simp only [Bool.false_eq_true, if_false]
    rw [hminus]
    simp only [Bool.false_eq_true, if_false]
    rw [grammarVal]
  | c :: s :: rest =>
    rw [inGrammar] at h
    simp only [Bool.and_eq_true, Bool.or_eq_true, decide_eq_true_eq,
      Bool.not_eq_true'] at h
    obtain ⟨⟨hc, hs⟩, hne, hdig⟩ := h
    have hne' : rest ≠ [] := by
      intro hnil; rw [hnil] at hne; exact absurd hne (by decide)
    have hcp : c ≠ '+' := by rcases hc with h | h <;> subst h <;> decide
    have hcm : c ≠ '-' := by rcases hc with h | h <;> subst h <;> decide
    have hrestp : rest.contains '+' = false := contains_plus_eq_false hdig
    have hrestm : rest.contains '-' = false := contains_minus_eq_false hdig
    have hdrop : (c :: s :: rest).drop 2 = rest := rfl
    have hval : pyIntOfChars rest = some (digitsVal rest) :=
      pyIntOfChars_digits hne' hdig
    rcases hs with hs | hs <;> subst hs
    · -- s = '+'
      have hcont : (c :: '+' :: rest).contains '+' = true := by
        simp [List.contains, List.elem_eq_mem]
      rw [resolveChars, if_pos hc, hcont]
      simp only [if_true, hdrop, hval, Option.map_some']
      rw [grammarVal]
      simp
    · -- s = '-'
      have hcont : (c :: '-' :: rest).contains '+' = false := by
        rw [List.contains, List.elem_eq_mem, decide_eq_false_iff_not]
        intro hmem
        rcases List.mem_cons.mp hmem with h1 | h1
        · exact hcp h1.symm
        rcases List.mem_cons.mp h1 with h2 | h2
        · exact absurd h2 (by decide)
        · rw [List.contains, List.elem_eq_mem] at hrestp
          exact absurd hrestp (by simp [h2])
      have hcont2 : (c :: '-' :: rest).contains '-' = true := by
        simp [List.contains, List.elem_eq_mem]
      rw [resolveChars, if_pos hc, hcont]
      simp only [Bool.false_eq_true, if_false]
      rw [hcont2]
      simp only [if_true, hdrop, hval, Option.map_some']
      rw [grammarVal]
      simp

/-- Witness for `c6_resolve_total_on_grammar` at the concrete expression
`A+15` with arrival 330 and departure 405. -/
theorem c6_resolve_total_on_grammar_witness :
    inGrammar ['A', '+', '1', '5'] = true ∧
    resolveChars 330 405 ['A', '+', '1', '5'] =
      some (grammarVal 330 405 ['A', '+', '1', '5']) :=
  ⟨by decide, c6_resolve_total_on_grammar 330 405 _ (by decide)⟩

/-- **C6 (counterexample)**: the string `"AX"` is outside the grammar, yet
`resolve` returns the arrival timestamp for it rather than failing — so it is
false that no string outside the grammar yields a timestamp. -/
theorem c6_counterexample :
    resolveChars 100 200 ['A', 'X'] = some 100 ∧
    inGrammar ['A', 'X'] = false := by
  constructor <;> decide

/-- **C7**: certification predicate semantics — under ALL, `can_perform` holds
iff every certification required by the service is held by the staff; under
ANY, iff at least one is held; with an empty required set it is true under ALL
and false under ANY. -/
theorem c7_can_perform_semantics (st : Staff) (s : Service) :
    (s.certificationRequirement = CertificationRequirement.ALL →
      (canPerformService st s = true ↔
        ∀ c ∈ s.certifications, c ∈ st.certifications)) ∧
    (s.certificationRequirement = CertificationRequirement.ANY →
      (canPerformService st s = true ↔
        ∃ c ∈ s.certifications, c ∈ st.certifications)) ∧
    (s.certifications = [] →
      (s.certificationRequirement = CertificationRequirement.ALL →
        canPerformService st s = true) ∧
      (s.certificationRequirement = CertificationRequirement.ANY →
        canPerformService st s = false)) := by
  refine ⟨fun hall => ?_, fun hany => ?_, fun hemp => ⟨fun hall => ?_, fun hany => ?_⟩⟩
  · rw [canPerformService, hall]
    simp [List.all_eq_true]
  · rw [canPerformService, hany]
    simp [List.any_eq_true]
  · rw [canPerformService, hall, hemp]; rfl
  · rw [canPerformService, hany, hemp]; rfl

/-- Witness for `c7_can_perform_semantics`: a staff holding certification 1
satisfies an ALL-service requiring {1}, and fails an ANY-service with an empty
required set. -/
theorem c7_can_perform_semantics_witness :
    canPerformService ⟨1, "John", [1], [⟨300, 600⟩]⟩
      ⟨1, "Cleaning", [1], CertificationRequirement.ALL,
        ServiceType.FLIGHT_LEVEL, 2, []⟩ = true ∧
    canPerformService ⟨1, "John", [1], [⟨300, 600⟩]⟩
      ⟨2, "Catering", [], CertificationRequirement.ANY,
        ServiceType.FLIGHT_LEVEL, 2, []⟩ = false :=
  ⟨((c7_can_perform_semantics _ _).1 rfl).mpr (by decide),
   ((c7_can_perform_semantics _ _).2.2 rfl).2 rfl⟩

/-! ### Decimal round-trip: `int(str(k)) = k` -/

theorem digitChar_isDigit {d : Nat} (h : d < 10) : (digitChar d).isDigit = true := by
  interval_cases d <;> decide

theorem digitChar_val {d : Nat} (h : d < 10) : (digitChar d).toNat - 48 = d := by
  interval_cases d <;> decide

theorem natToDec_ne_nil (n : Nat) : natToDec n ≠ [] := by
  rw [natToDec]
  split <;> simp

theorem natToDec_all_digits (n : Nat) : (natToDec n).all Char.isDigit = true := by
  induction n using Nat.strong_induction_on with
  | _ n ih =>
    rw [natToDec]
    split
    · next h => simp [digitChar_isDigit h]
    · next h =>
      rw [List.all_append, ih (n / 10) (Nat.div_lt_self (by omega) (by omega))]
      simp [digitChar_isDigit (Nat.mod_lt n (by omega))]

theorem digitsVal_append_singleton (l : List Char) (c : Char) :
    digitsVal (l ++ [c]) = 10 * digitsVal l + (c.toNat - 48) := by
  rw [digitsVal, digitsVal, List.foldl_append]
  rfl

theorem digitsVal_natToDec (n : Nat) : digitsVal (natToDec n) = n := by
  induction n using Nat.strong_induction_on with
  | _ n ih =>
    rw [natToDec]
    split
    · next h =>
      show 10 * 0 + ((digitChar n).toNat - 48) = n
      rw [digitChar_val h]
      omega
    · next h =>
      rw [digitsVal_append_singleton,
        ih (n / 10) (Nat.div_lt_self (by omega) (by omega)),
        digitChar_val (Nat.mod_lt n (by omega))]
      omega

theorem pyIntToStr_roundtrip (i : Int) : pyIntOfStr (pyIntToStr i) = some i := by
  rw [pyIntToStr]
  by_cases h : i < 0
  · rw [if_pos h]
    show pyIntOfChars ('-' :: natToDec i.natAbs) = some i
    rw [pyIntOfChars, if_pos rfl, decToNat?,
      if_pos ⟨natToDec_ne_nil _, natToDec_all_digits _⟩, digitsVal_natToDec]
    show some (-(i.natAbs : Int)) = some i
    congr 1
    omega
  · rw [if_neg h]
    show pyIntOfChars (natToDec i.natAbs) = some i
    rw [pyIntOfChars_digits (natToDec_ne_nil _) (natToDec_all_digits _),
      digitsVal_natToDec]
    show some ((i.natAbs : Int)) = some i
    congr 1
    omega

/-! ### Association-list dictionary lemmas -/

theorem mem_dictSet {κ β : Type} [DecidableEq κ] {l : List (κ × β)} {k : κ} {v : β}
    {e : κ × β} (h : e ∈ dictSet l k v) : e = (k, v) ∨ e ∈ l := by
  rw [dictSet] at h
  split at h
  · obtain ⟨e', he', heq⟩ := List.mem_map.mp h
    by_cases hk : e'.1 = k
    · rw [if_pos hk] at heq
      exact Or.inl heq.symm
    · rw [if_neg hk] at heq
      exact Or.inr (heq ▸ he')
  · rcases List.mem_append.mp h with h1 | h1
    · exact Or.inr h1
    · exact Or.inl (by simpa using h1)

theorem keys_dictSet_nodup {κ β : Type} [DecidableEq κ] {l : List (κ × β)}
    (k : κ) (v : β) (h : (l.map Prod.fst).Nodup) :
    ((dictSet l k v).map Prod.fst).Nodup := by
  rw [dictSet]
  split
  · have heq : (l.map (fun e => if e.1 = k then (k, v) else e)).map Prod.fst
        = l.map Prod.fst := by
      rw [List.map_map]
      apply List.map_congr_left
      intro e _
      by_cases hk : e.1 = k <;> simp [hk]
    rw [heq]; exact h
  · next hany =>
    have hk : k ∉ l.map Prod.fst := by
      intro hmem
      obtain ⟨e, he, heq⟩ := List.mem_map.mp hmem
      exact hany (List.any_eq_true.mpr ⟨e, he, by simp [heq]⟩)
    rw [List.map_append]
    simp [List.nodup_append, h, hk]

theorem lookupD_eq_some_mem {κ β : Type} [DecidableEq κ] {l : List (κ × β)}
    {k : κ} {b : β} (h : lookupD l k = some b) : (k, b) ∈ l := by
  rw [lookupD] at h
  obtain ⟨e, he, hb⟩ := Option.map_eq_some'.mp h
  have hm := List.mem_of_find?_eq_some he
  have hp := List.find?_some he
  rw [decide_eq_true_eq] at hp
  have : e = (k, b) := by
    cases e; cases hp; cases hb; rfl
  exact this ▸ hm

theorem dictSet_eq_append {κ β : Type} [DecidableEq κ] {l : List (κ × β)} {k : κ}
    (v : β) (h : k ∉ l.map Prod.fst) : dictSet l k v = l ++ [(k, v)] := by
  rw [dictSet, if_neg]
  intro hany
  rw [List.any_eq_true] at hany
  obtain ⟨e, he, hpe⟩ := hany
  exact h (List.mem_map.mpr ⟨e, he, by simpa using hpe⟩)

theorem lookupD_dictSet_ne {κ β : Type} [DecidableEq κ] (l : List (κ × β))
    (k k' : κ) (v : β) (h : k ≠ k') :
    lookupD (dictSet l k v) k' = lookupD l k' := by
  rw [dictSet]
  by_cases hany : (l.any fun e => decide (e.1 = k)) = true
  · rw [if_pos hany]
    clear hany
    rw [lookupD, lookupD]
    congr 1
    induction l with
    | nil => rfl
    | cons e t ih =>
      rw [List.map_cons]
      by_cases hk : e.1 = k
      · rw [if_pos hk]
        rw [List.find?_cons_of_neg _ (by simp [h]),
          List.find?_cons_of_neg _ (by simp [hk, h])]
        exact ih
      · rw [if_neg hk]
        by_cases hk' : e.1 = k'
        · rw [List.find?_cons_of_pos _ (by simp [hk']),
            List.find?_cons_of_pos _ (by simp [hk'])]
        · rw [List.find?_cons_of_neg _ (by simp [hk']),
            List.find?_cons_of_neg _ (by simp [hk'])]
          exact ih
  · rw [if_neg hany]
    clear hany
    rw [lookupD, lookupD]
    congr 1
    induction l with
    | nil =>
      rw [List.nil_append, List.find?_cons_of_neg _ (by simp [h])]
    | cons e t ih =>
      rw [List.cons_append]
      by_cases hk' : e.1 = k'
      · rw [List.find?_cons_of_pos _ (by simp [hk']),
          List.find?_cons_of_pos _ (by simp [hk'])]
      · rw [List.find?_cons_of_neg _ (by simp [hk']),
          List.find?_cons_of_neg _ (by simp [hk'])]
        exact ih

/-! ### Well-formedness of plans built by `add_allocation` -/

theorem wfStaff_nil : wfStaff [] := List.nodup_nil

theorem wfServices_nil : wfServices [] := ⟨List.nodup_nil, by simp⟩

theorem wfStaff_dictSet {t : StaffDict} {k : Int} {v : Bool} (h : wfStaff t) :
    wfStaff (dictSet t k v) := keys_dictSet_nodup k v h

theorem wfServices_dictSet {sv : ServiceDict} {k : Int} {st : StaffDict}
    (h : wfServices sv) (hst : wfStaff st) : wfServices (dictSet sv k st) := by
  refine ⟨keys_dictSet_nodup k st h.1, fun e he => ?_⟩
  rcases mem_dictSet he with heq | hmem
  · rw [heq]; exact hst
  · exact h.2 e hmem

theorem wfAlloc_dictSet {p : Alloc} {k : String} {sv : ServiceDict}
    (h : wfAlloc p) (hsv : wfServices sv) : wfAlloc (dictSet p k sv) := by
  refine ⟨keys_dictSet_nodup k sv h.1, fun e he => ?_⟩
  rcases mem_dictSet he with heq | hmem
  · rw [heq]; exact hsv
  · exact h.2 e hmem

theorem wfServices_lookup {p : Alloc} (f : String) (h : wfAlloc p) :
    wfServices ((lookupD p f).getD []) := by
  cases hl : lookupD p f with
  | none => exact wfServices_nil
  | some sv => exact h.2 _ (lookupD_eq_some_mem hl)

theorem wfStaff_lookup {sv : ServiceDict} (s : Int) (h : wfServices sv) :
    wfStaff ((lookupD sv s).getD []) := by
  cases hl : lookupD sv s with
  | none => exact wfStaff_nil
  | some st => exact h.2 _ (lookupD_eq_some_mem hl)

theorem wfAlloc_addAllocation (p : Alloc) (f : String) (s staffId : Int) (v : Bool)
    (h : wfAlloc p) : wfAlloc (addAllocation p f s staffId v) := by
  exact wfAlloc_dictSet h
    (wfServices_dictSet (wfServices_lookup f h)
      (wfStaff_dictSet (wfStaff_lookup s (wfServices_lookup f h))))

theorem wfAlloc_buildPlan (l : List (String × Int × Int × Bool)) :
    wfAlloc (buildPlan l) := by
  rw [buildPlan]
  suffices hgen : ∀ p : Alloc, wfAlloc p →
      wfAlloc (l.foldl (fun p q => addAllocation p q.1 q.2.1 q.2.2.1 q.2.2.2) p) from
    hgen [] ⟨List.nodup_nil, by simp⟩
  induction l with
  | nil => exact fun p hp => hp
  | cons q rest ih =>
    intro p hp
    exact ih _ (wfAlloc_addAllocation p q.1 q.2.1 q.2.2.1 q.2.2.2 hp)

/-! ### Deserialization inverts serialization on well-formed plans -/

theorem deser_staff_aux (t acc : StaffDict) (hnd : (t.map Prod.fst).Nodup)
    (hdisj : ∀ x ∈ t, x.1 ∉ acc.map Prod.fst) :
    (t.map fun te => (pyIntToStr te.1, te.2)).foldlM deserStaffStep acc
      = some (acc ++ t) := by
  induction t generalizing acc with
  | nil => simp
  | cons x rest ih =>
    rw [List.map_cons, List.foldlM_cons]
    simp only [deserStaffStep, pyIntToStr_roundtrip, Option.bind_eq_bind,
      Option.some_bind]
    rw [dictSet_eq_append x.2 (hdisj x (List.mem_cons_self _ _))]
    have hx : (x.1, x.2) = x := rfl
    rw [hx]
    have hnd2 : (x.1 :: rest.map Prod.fst).Nodup := by
      rw [List.map_cons] at hnd; exact hnd
    rw [ih (acc ++ [x]) (List.nodup_cons.mp hnd2).2]
    · rw [List.append_assoc]; rfl
    · intro y hy
      rw [List.map_append, List.mem_append]
      rintro (hmem | hmem)
      · exact hdisj y (List.mem_cons_of_mem _ hy) hmem
      · have : y.1 = x.1 := by simpa using hmem
        exact (List.nodup_cons.mp hnd2).1 (this ▸ List.mem_map.mpr ⟨y, hy, rfl⟩)

theorem deser_services_aux (sv acc : ServiceDict) (hwf : wfServices sv)
    (hdisj : ∀ x ∈ sv, x.1 ∉ acc.map Prod.fst) :
    (sv.map fun se =>
        (pyIntToStr se.1, se.2.map fun te => (pyIntToStr te.1, te.2))).foldlM
      deserServicesStep acc = some (acc ++ sv) := by
  induction sv generalizing acc with
  | nil => simp
  | cons x rest ih =>
    rw [List.map_cons, List.foldlM_cons]
    simp only [deserServicesStep, pyIntToStr_roundtrip, Option.bind_eq_bind,
      Option.some_bind]
    rw [deser_staff_aux x.2 [] (hwf.2 x (List.mem_cons_self _ _)) (by simp)]
    simp only [List.nil_append, Option.some_bind]
    rw [dictSet_eq_append x.2 (hdisj x (List.mem_cons_self _ _))]
    have hx : (x.1, x.2) = x := rfl
    rw [hx]
    have hnd2 : (x.1 :: rest.map Prod.fst).Nodup := by
      have h1 := hwf.1; rw [List.map_cons] at h1; exact h1
    rw [ih (acc ++ [x])
      ⟨(List.nodup_cons.mp hnd2).2,
       fun e he => hwf.2 e (List.mem_cons_of_mem _ he)⟩]
    · rw [List.append_assoc]; rfl
    · intro y hy
      rw [List.map_append, List.mem_append]
      rintro (hmem | hmem)
      · exact hdisj y (List.mem_cons_of_mem _ hy) hmem
      · have : y.1 = x.1 := by simpa using hmem
        exact (List.nodup_cons.mp hnd2).1 (this ▸ List.mem_map.mpr ⟨y, hy, rfl⟩)

theorem deser_alloc_aux (p acc : Alloc) (hwf : wfAlloc p)
    (hdisj : ∀ x ∈ p, x.1 ∉ acc.map Prod.fst) :
    deserializeAlloc acc (serializeObj p) = some (acc ++ p) := by
  rw [deserializeAlloc, serializeObj]
  induction p generalizing acc with
  | nil => simp
  | cons x rest ih =>
    rw [List.map_cons, List.foldlM_cons]
    simp only [deserAllocStep, Option.bind_eq_bind, Option.some_bind]
    rw [deser_services_aux x.2 [] (hwf.2 x (List.mem_cons_self _ _)) (by simp)]
    simp only [List.nil_append, Option.some_bind]
    rw [dictSet_eq_append x.2 (hdisj x (List.mem_cons_self _ _))]
    have hx : (x.1, x.2) = x := rfl
    rw [hx]
    have hnd2 : (x.1 :: rest.map Prod.fst).Nodup := by
      have h1 := hwf.1; rw [List.map_cons] at h1; exact h1
    rw [ih (acc ++ [x])
      ⟨(List.nodup_cons.mp hnd2).2,
       fun e he => hwf.2 e (List.mem_cons_of_mem _ he)⟩]
    · rw [List.append_assoc]; rfl
    · intro y hy
      rw [List.map_append, List.mem_append]
      rintro (hmem | hmem)
      · exact hdisj y (List.mem_cons_of_mem _ hy) hmem
      · have : y.1 = x.1 := by simpa using hmem
        exact (List.nodup_cons.mp hnd2).1 (this ▸ List.mem_map.mpr ⟨y, hy, rfl⟩)

/-- **C8**: plan serialization round-trip — for every plan built from
`add_allocation` calls, deserializing the serialized form into a fresh plan
restores exactly the original allocations mapping, with service and staff
keys coerced back to integers and flight numbers kept as strings. -/
theorem c8_plan_roundtrip (l : List (String × Int × Int × Bool)) :
    deserializeAlloc [] (serializeObj (buildPlan l)) = some (buildPlan l) := by
  rw [deser_alloc_aux (buildPlan l) [] (wfAlloc_buildPlan l) (by simp)]
  rfl

/-- **C9**: `get_allocation` is total — it returns `false` (not an error and
not `None`) whenever any of the three keys is absent at its level of the
nested allocations mapping, and returns the stored boolean otherwise. -/
theorem c9_get_allocation_total (p : Alloc) (f : String) (s staffId : Int) :
    (lookupD p f = none → getAllocation p f s staffId = false) ∧
    (∀ sv, lookupD p f = some sv → lookupD sv s = none →
      getAllocation p f s staffId = false) ∧
    (∀ sv ts, lookupD p f = some sv → lookupD sv s = some ts →
      lookupD ts staffId = none → getAllocation p f s staffId = false) ∧
    (∀ sv ts v, lookupD p f = some sv → lookupD sv s = some ts →
      lookupD ts staffId = some v → getAllocation p f s staffId = v) := by
  refine ⟨fun h1 => ?_, fun sv h1 h2 => ?_, fun sv ts h1 h2 h3 => ?_,
    fun sv ts v h1 h2 h3 => ?_⟩
  · rw [getAllocation, h1]
    cases h2 : lookupD ([] : ServiceDict) s <;> simp_all [lookupD]
  · rw [getAllocation, h1, Option.getD_some, h2]
    cases h3 : lookupD ([] : StaffDict) staffId <;> simp_all [lookupD]
  · rw [getAllocation, h1, Option.getD_some, h2, Option.getD_some, h3]; rfl
  · rw [getAllocation, h1, Option.getD_some, h2, Option.getD_some, h3]; rfl

/-- Witness for `c9_get_allocation_total` on a one-entry plan: a present
triple returns its stored value, an absent flight returns `false`. -/
theorem c9_get_allocation_total_witness :
    getAllocation [("DL101", [(1, [(2, true)])])] "DL101" 1 2 = true ∧
    getAllocation [("DL101", [(1, [(2, true)])])] "ZZ999" 1 2 = false :=
  ⟨(c9_get_allocation_total _ "DL101" 1 2).2.2.2 _ _ true (by rfl) (by rfl) (by rfl),
   (c9_get_allocation_total _ "ZZ999" 1 2).1 (by rfl)⟩

/-- **C10**: `deserialize` merges rather than replaces — when it completes,
every flight number that does not occur as a top-level key of the input keeps
exactly the allocations it had before the call. -/
theorem c10_deserialize_frame (p : Alloc) (j : JsonAlloc) (p' : Alloc)
    (hrun : deserializeAlloc p j = some p') (f : String)
    (hf : ∀ e ∈ j, e.1 ≠ f) : lookupD p' f = lookupD p f := by
  rw [deserializeAlloc] at hrun
  induction j generalizing p with
  | nil =>
    simp only [List.foldlM_nil] at hrun
    cases hrun
    rfl
  | cons x rest ih =>
    rw [List.foldlM_cons] at hrun
    simp only [deserAllocStep, Option.bind_eq_bind] at hrun
    cases hinner : x.2.foldlM deserServicesStep ([] : ServiceDict) with
    | none => rw [hinner] at hrun; simp at hrun
    | some inner =>
      rw [hinner] at hrun
      simp only [Option.some_bind] at hrun
      have hrest := ih (dictSet p x.1 inner) hrun
        (fun e he => hf e (List.mem_cons_of_mem _ he))
      rw [hrest]
      exact lookupD_dictSet_ne p x.1 f inner (hf x (List.mem_cons_self _ _))

/-- Witness for `c10_deserialize_frame`: deserializing an input touching only
flight `DL2` leaves flight `DL1`'s allocations unchanged. -/
theorem c10_deserialize_frame_witness :
    lookupD (([("DL1", [(1, [(2, true)])]),
               ("DL2", [(3, [(4, true)])])] : Alloc)) "DL1" =
      lookupD (([("DL1", [(1, [(2, true)])]),
                 ("DL2", [(1, [(2, false)])])] : Alloc)) "DL1" :=
  c10_deserialize_frame
    [("DL1", [(1, [(2, true)])]), ("DL2", [(1, [(2, false)])])]
    [("DL2", [("3", [("4", true)])])]
    [("DL1", [(1, [(2, true)])]), ("DL2", [(3, [(4, true)])])]
    (by rfl) "DL1" (by decide)

/-! ### Counting lemmas for linear constraints -/

theorem two_le_countP {α : Type} (p : α → Bool) {l : List α} {a b : α}
    (ha : a ∈ l) (hb : b ∈ l) (hab : a ≠ b) (hpa : p a = true)
    (hpb : p b = true) : 2 ≤ l.countP p := by
  induction l with
  | nil => cases ha
  | cons x t ih =>
    rw [List.countP_cons]
    rcases List.mem_cons.mp ha with rfl | ha2
    · rcases List.mem_cons.mp hb with rfl | hb2
      · exact absurd rfl hab
      · have h1 : 0 < t.countP p := List.countP_pos_iff.mpr ⟨b, hb2, hpb⟩
        rw [if_pos hpa]; omega
    · rcases List.mem_cons.mp hb with rfl | hb2
      · have h1 : 0 < t.countP p := List.countP_pos_iff.mpr ⟨a, ha2, hpa⟩
        rw [if_pos hpb]; omega
      · have := ih ha2 hb2; omega

/-- **C1**: evaluation of `add_flight_level_service_constraints` at the
failing input (flight DL1 with flight-level services 1, 2, 3; no exclusions;
service 1 has cross-utilization limit 1; staff 7).  The cross-utilization
block sits outside the per-service loop in the source, so the model receives
only the single constraint for the *last* service (bound 3); the constraint
the claim requires for service 1 (bound 1) is never emitted, and the
valuation assigning services 1 and 2 to staff 7 satisfies every emitted
flight-level constraint while holding 2 compatible services against
service 1's limit of 1. -/
theorem c1_cross_utilization_bug :
    flightLevelConstraints smC1 [flC1] [stC1]
      = [⟨[("DL1", 3, 7), ("DL1", 1, 7), ("DL1", 2, 7)], 3⟩] ∧
    (⟨[("DL1", 1, 7), ("DL1", 2, 7), ("DL1", 3, 7)], 1⟩ : LinLe)
      ∉ flightLevelConstraints smC1 [flC1] [stC1] ∧
    (∀ c ∈ flightLevelConstraints smC1 [flC1] [stC1], satLin vC1 c) ∧
    compatibleHeldCount smC1 "DL1" 7 (flightLevelServices smC1 flC1)
      ⟨1, 2, ['A'], ['D']⟩ vC1 = 2 ∧
    (smC1 1).crossUtilizationLimit = 1 :=
  ⟨by decide, by decide, by decide, by decide, by decide⟩

/-! ### Category singleness (C5) -/

theorem category_singleness_generic (sm : Int → Service) (ty : ServiceType)
    (flights : List Flight) (roster : List Staff) (v : XKey → Bool)
    {f : Flight} {st : Staff} (hf : f ∈ flights) (hst : st ∈ roster)
    (hsat : ∀ c ∈ categorySinglenessConstraints sm ty flights roster, satLin v c) :
    (∀ fs1 ∈ f.flightServices, ∀ fs2 ∈ f.flightServices,
      (sm fs1.id).type = ty → (sm fs2.id).type = ty →
      v (f.number, fs1.id, st.id) = true → v (f.number, fs2.id, st.id) = true →
      fs1.id = fs2.id) ∧
    (∀ fs1 ∈ f.flightServices, ∀ fs2 ∈ f.flightServices,
      (sm fs1.id).type = ty → ¬ (sm fs2.id).type = ty →
      v (f.number, fs1.id, st.id) = true → v (f.number, fs2.id, st.id) = false) := by
  constructor
  · intro fs1 h1 fs2 h2 ht1 ht2 hv1 hv2
    by_contra hne
    have hcon : (⟨(f.flightServices.filter fun fs => decide ((sm fs.id).type = ty)).map
        (fun fs => ((f.number, fs.id, st.id) : XKey)), 1⟩ : LinLe)
        ∈ categorySinglenessConstraints sm ty flights roster :=
      List.mem_flatMap.mpr ⟨f, hf,
        List.mem_flatMap.mpr ⟨st, hst, List.mem_cons_self _ _⟩⟩
    have hs := hsat _ hcon
    have hk1 : ((f.number, fs1.id, st.id) : XKey)
        ∈ (f.flightServices.filter fun fs => decide ((sm fs.id).type = ty)).map
          (fun fs => ((f.number, fs.id, st.id) : XKey)) :=
      List.mem_map.mpr ⟨fs1, List.mem_filter.mpr ⟨h1, by simp [ht1]⟩, rfl⟩
    have hk2 : ((f.number, fs2.id, st.id) : XKey)
        ∈ (f.flightServices.filter fun fs => decide ((sm fs.id).type = ty)).map
          (fun fs => ((f.number, fs.id, st.id) : XKey)) :=
      List.mem_map.mpr ⟨fs2, List.mem_filter.mpr ⟨h2, by simp [ht2]⟩, rfl⟩
    have hkne : ((f.number, fs1.id, st.id) : XKey) ≠ (f.number, fs2.id, st.id) := by
      intro heq
      exact hne (congrArg (fun k => k.2.1) heq)
    have h2c := two_le_countP v hk1 hk2 hkne hv1 hv2
    simp only [satLin] at hs
    omega
  · intro fs1 h1 fs2 h2 ht1 ht2 hv1
    have hcon : (⟨[((f.number, fs1.id, st.id) : XKey),
        ((f.number, fs2.id, st.id) : XKey)], 1⟩ : LinLe)
        ∈ categorySinglenessConstraints sm ty flights roster := by
      refine List.mem_flatMap.mpr ⟨f, hf, List.mem_flatMap.mpr ⟨st, hst,
        List.mem_cons_of_mem _ (List.mem_flatMap.mpr
          ⟨fs1, List.mem_filter.mpr ⟨h1, by simp [ht1]⟩,
           List.mem_map.mpr ⟨fs2, List.mem_filter.mpr ⟨h2, by simp [ht2]⟩, rfl⟩⟩)⟩⟩
    have hs := hsat _ hcon
    simp only [satLin] at hs
    cases hv2 : v (f.number, fs2.id, st.id) with
    | false => rfl
    | true =>
      exfalso
      rw [List.countP_cons, List.countP_cons, List.countP_nil,
        if_pos hv1, if_pos hv2] at hs
      omega

/-- **C5**: category singleness — in every solution of the common-level and
multi-flight intra-flight constraints, for every (flight, staff): at most one
common-level service is assigned, at most one multi-flight service is
assigned, and a staff assigned a common-level (resp. multi-flight) service is
assigned no service of any other category on that flight. -/
theorem c5_category_singleness (sm : Int → Service) (flights : List Flight)
    (roster : List Staff) (v : XKey → Bool) {f : Flight} {st : Staff}
    (hf : f ∈ flights) (hst : st ∈ roster)
    (hcom : ∀ c ∈ commonLevelConstraints sm flights roster, satLin v c)
    (hmf : ∀ c ∈ multiFlightIntraConstraints sm flights roster, satLin v c) :
    (∀ fs1 ∈ f.flightServices, ∀ fs2 ∈ f.flightServices,
      (sm fs1.id).type = ServiceType.COMMON_LEVEL →
      (sm fs2.id).type = ServiceType.COMMON_LEVEL →
      v (f.number, fs1.id, st.id) = true → v (f.number, fs2.id, st.id) = true →
      fs1.id = fs2.id) ∧
    (∀ fs1 ∈ f.flightServices, ∀ fs2 ∈ f.flightServices,
      (sm fs1.id).type = ServiceType.MULTI_FLIGHT →
      (sm fs2.id).type = ServiceType.MULTI_FLIGHT →
      v (f.number, fs1.id, st.id) = true → v (f.number, fs2.id, st.id) = true →
      fs1.id = fs2.id) ∧
    (∀ fs1 ∈ f.flightServices, ∀ fs2 ∈ f.flightServices,
      (sm fs1.id).type = ServiceType.COMMON_LEVEL →
      ¬ (sm fs2.id).type = ServiceType.COMMON_LEVEL →
      v (f.number, fs1.id, st.id) = true → v (f.number, fs2.id, st.id) = false) ∧
    (∀ fs1 ∈ f.flightServices, ∀ fs2 ∈ f.flightServices,
      (sm fs1.id).type = ServiceType.MULTI_FLIGHT →
      ¬ (sm fs2.id).type = ServiceType.MULTI_FLIGHT →
      v (f.number, fs1.id, st.id) = true → v (f.number, fs2.id, st.id) = false) := by
  have hc := category_singleness_generic sm ServiceType.COMMON_LEVEL flights roster v hf hst hcom
  have hm := category_singleness_generic sm ServiceType.MULTI_FLIGHT flights roster v hf hst hmf
  exact ⟨hc.1, hm.1, hc.2, hm.2⟩

/-- Witness for `c5_category_singleness`: one flight with a common-level
service 1 and a flight-level service 2; the valuation assigning only service 1
to staff 5 satisfies both constraint families, and the theorem yields that
service 2 is not assigned. -/
theorem c5_category_singleness_witness :
    vC5 ("DL1", 2, 5) = false :=
  (c5_category_singleness smC5 [flC5] [stC5] vC5
      (List.mem_singleton.mpr rfl) (List.mem_singleton.mpr rfl)
      (by decide) (by decide)).2.2.1
    ⟨1, 1, ['A'], ['D']⟩ (by decide) ⟨2, 1, ['A'], ['D']⟩ (by decide)
    (by decide) (by decide) (by decide)

/-! ### Multi-flight cross-flight consistency (C4) -/

theorem mfServiceFold_cons (sm : Int → Service) (staffId : Int) (fnum : String)
    (fs : FlightService) (t : List FlightService) (acc : List (Int × List XKey)) :
    mfServiceFold sm staffId fnum (fs :: t) acc
      = mfServiceFold sm staffId fnum t
          (if (sm fs.id).type = ServiceType.MULTI_FLIGHT then
            upsertAppend acc fs.id (fnum, fs.id, staffId)
          else acc) := rfl

theorem mfFlightsFold_cons (sm : Int → Service) (staffId : Int) (f : Flight)
    (t : List Flight) (acc : List (Int × List XKey)) :
    mfFlightsFold sm staffId (f :: t) acc
      = mfFlightsFold sm staffId t
          (mfServiceFold sm staffId f.number f.flightServices acc) := rfl

theorem mem_upsertAppend_self (acc : List (Int × List XKey)) (k : Int) (x : XKey) :
    ∃ g ∈ upsertAppend acc k x, g.1 = k ∧ x ∈ g.2 := by
  rw [upsertAppend]
  split
  · next hany =>
    rw [List.any_eq_true] at hany
    obtain ⟨e, he, hpe⟩ := hany
    rw [decide_eq_true_eq] at hpe
    refine ⟨(e.1, e.2 ++ [x]), List.mem_map.mpr ⟨e, he, by rw [if_pos hpe]⟩, hpe, ?_⟩
    exact List.mem_append_right _ (List.mem_singleton.mpr rfl)
  · exact ⟨(k, [x]), List.mem_append_right _ (List.mem_singleton.mpr rfl), rfl,
      List.mem_singleton.mpr rfl⟩

theorem mem_upsertAppend_preserve (acc : List (Int × List XKey)) (k : Int)
    (x : XKey) {k0 : Int} {key : XKey}
    (h : ∃ g ∈ acc, g.1 = k0 ∧ key ∈ g.2) :
    ∃ g ∈ upsertAppend acc k x, g.1 = k0 ∧ key ∈ g.2 := by
  obtain ⟨g, hg, hk0, hkey⟩ := h
  rw [upsertAppend]
  split
  · by_cases hgk : g.1 = k
    · exact ⟨(g.1, g.2 ++ [x]), List.mem_map.mpr ⟨g, hg, by rw [if_pos hgk]⟩, hk0,
        List.mem_append_left _ hkey⟩
    · exact ⟨g, List.mem_map.mpr ⟨g, hg, by rw [if_neg hgk]⟩, hk0, hkey⟩
  · exact ⟨g, List.mem_append_left _ hg, hk0, hkey⟩

theorem mfServiceFold_preserve (sm : Int → Service) (staffId : Int) (fnum : String)
    (l : List FlightService) (acc : List (Int × List XKey)) {k0 : Int} {key : XKey}
    (h : ∃ g ∈ acc, g.1 = k0 ∧ key ∈ g.2) :
    ∃ g ∈ mfServiceFold sm staffId fnum l acc, g.1 = k0 ∧ key ∈ g.2 := by
  induction l generalizing acc with
  | nil => exact h
  | cons fs t ih =>
    rw [mfServiceFold_cons]
    apply ih
    split
    · exact mem_upsertAppend_preserve _ _ _ h
    · exact h

theorem mfServiceFold_establish (sm : Int → Service) (staffId : Int) (fnum : String)
    {l : List FlightService} {fs : FlightService} (hmem : fs ∈ l)
    (hty : (sm fs.id).type = ServiceType.MULTI_FLIGHT)
    (acc : List (Int × List XKey)) :
    ∃ g ∈ mfServiceFold sm staffId fnum l acc,
      g.1 = fs.id ∧ ((fnum, fs.id, staffId) : XKey) ∈ g.2 := by
  induction l generalizing acc with
  | nil => cases hmem
  | cons x t ih =>
    rw [mfServiceFold_cons]
    rcases List.mem_cons.mp hmem with rfl | hmem2
    · rw [if_pos hty]
      exact mfServiceFold_preserve sm staffId fnum t _ (mem_upsertAppend_self acc fs.id _)
    · exact ih hmem2 _

theorem mfFlightsFold_preserve (sm : Int → Service) (staffId : Int)
    (flights : List Flight) (acc : List (Int × List XKey)) {k0 : Int} {key : XKey}
    (h : ∃ g ∈ acc, g.1 = k0 ∧ key ∈ g.2) :
    ∃ g ∈ mfFlightsFold sm staffId flights acc, g.1 = k0 ∧ key ∈ g.2 := by
  induction flights generalizing acc with
  | nil => exact h
  | cons f t ih =>
    rw [mfFlightsFold_cons]
    exact ih _ (mfServiceFold_preserve sm staffId f.number f.flightServices acc h)

theorem multiFlightGroups_establish (sm : Int → Service) {flights : List Flight}
    (staffId : Int) {f : Flight} (hf : f ∈ flights) {fs : FlightService}
    (hfs : fs ∈ f.flightServices)
    (hty : (sm fs.id).type = ServiceType.MULTI_FLIGHT) :
    ∃ g ∈ multiFlightGroups sm flights staffId,
      g.1 = fs.id ∧ ((f.number, fs.id, staffId) : XKey) ∈ g.2 := by
  rw [multiFlightGroups]
  suffices hgen : ∀ acc : List (Int × List XKey),
      ∃ g ∈ mfFlightsFold sm staffId flights acc,
        g.1 = fs.id ∧ ((f.number, fs.id, staffId) : XKey) ∈ g.2 from hgen []
  induction flights with
  | nil => cases hf
  | cons x t ih =>
    intro acc
    rcases List.mem_cons.mp hf with rfl | hf2
    · rw [mfFlightsFold_cons]
      exact mfFlightsFold_preserve sm staffId t _
        (mfServiceFold_establish sm staffId f.number hfs hty acc)
    · rw [mfFlightsFold_cons]
      exact ih hf2 _

/-- **C4**: cross-flight multi-flight consistency — in every solution of the
cross-flight multi-flight constraints (one indicator per multi-flight service
id, linked by `Σ X_m ≥ 1 ⇔ y_m` and bounded by `Σ_m y_m ≤ 1`), a staff member
assigned multi-flight services on any two flights is assigned the same
service id on both; no staff ever holds two distinct multi-flight ids. -/
theorem c4_multi_flight_consistency (sm : Int → Service) (flights : List Flight)
    (roster : List Staff) (v : XKey → Bool) (w : Int × Int → Bool)
    (hsat : ∀ c ∈ multiFlightAllCrossConstraints sm flights roster, satMF v w c)
    {st : Staff} (hst : st ∈ roster) {f1 f2 : Flight} (hf1 : f1 ∈ flights)
    (hf2 : f2 ∈ flights) {fs1 fs2 : FlightService}
    (hm1 : fs1 ∈ f1.flightServices) (hm2 : fs2 ∈ f2.flightServices)
    (ht1 : (sm fs1.id).type = ServiceType.MULTI_FLIGHT)
    (ht2 : (sm fs2.id).type = ServiceType.MULTI_FLIGHT)
    (hv1 : v (f1.number, fs1.id, st.id) = true)
    (hv2 : v (f2.number, fs2.id, st.id) = true) :
    fs1.id = fs2.id := by
  obtain ⟨g1, hg1, hgk1, hkey1⟩ := multiFlightGroups_establish sm st.id hf1 hm1 ht1
  obtain ⟨g2, hg2, hgk2, hkey2⟩ := multiFlightGroups_establish sm st.id hf2 hm2 ht2
  have hw : ∀ g ∈ multiFlightGroups sm flights st.id, ∀ key ∈ g.2,
      v key = true → w (st.id, g.1) = true := by
    intro g hg key hkey hv
    cases hb : w (st.id, g.1) with
    | true => rfl
    | false =>
      exfalso
      have hcon : MFCon.xEqZeroIfNotY (st.id, g.1) g.2
          ∈ multiFlightAllCrossConstraints sm flights roster := by
        refine List.mem_flatMap.mpr ⟨st, hst, List.mem_cons_of_mem _
          (List.mem_flatMap.mpr ⟨g, hg, ?_⟩)⟩
        exact List.mem_cons_of_mem _ (List.mem_singleton.mpr rfl)
      have hs := hsat _ hcon
      simp only [satMF] at hs
      have h0 := hs hb
      have hpos : 0 < g.2.countP v := List.countP_pos_iff.mpr ⟨key, hkey, hv⟩
      omega
  have hw1 := hw g1 hg1 _ hkey1 hv1
  have hw2 := hw g2 hg2 _ hkey2 hv2
  by_contra hne
  have hy1 : ((st.id, g1.1) : Int × Int)
      ∈ (multiFlightGroups sm flights st.id).map fun g => (st.id, g.1) :=
    List.mem_map.mpr ⟨g1, hg1, rfl⟩
  have hy2 : ((st.id, g2.1) : Int × Int)
      ∈ (multiFlightGroups sm flights st.id).map fun g => (st.id, g.1) :=
    List.mem_map.mpr ⟨g2, hg2, rfl⟩
  have hyne : ((st.id, g1.1) : Int × Int) ≠ (st.id, g2.1) := by
    intro heq
    rw [hgk1, hgk2] at heq
    exact hne (congrArg Prod.snd heq)
  have hconY : MFCon.yLe ((multiFlightGroups sm flights st.id).map
      fun g => (st.id, g.1)) 1 ∈ multiFlightAllCrossConstraints sm flights roster :=
    List.mem_flatMap.mpr ⟨st, hst, List.mem_cons_self _ _⟩
  have hs := hsat _ hconY
  simp only [satMF] at hs
  have h2 := two_le_countP w hy1 hy2 hyne hw1 hw2
  omega

/-- Witness for `c4_multi_flight_consistency`: staff 5 holds multi-flight
service 9 on both DL1 and DL2 under a valuation satisfying all cross-flight
constraints; the theorem applies and yields equality of the two service ids. -/
theorem c4_multi_flight_consistency_witness :
    (∀ c ∈ multiFlightAllCrossConstraints smC4 [f1C4, f2C4] [stC4],
      satMF vC4 wC4 c) ∧
    ((9 : Int) = 9) :=
  ⟨by decide,
   c4_multi_flight_consistency smC4 [f1C4, f2C4] [stC4] vC4 wC4 (by decide)
     (List.mem_singleton.mpr rfl) (List.mem_cons_self _ _)
     (List.mem_cons_of_mem _ (List.mem_singleton.mpr rfl))
     (List.mem_singleton.mpr rfl) (List.mem_singleton.mpr rfl)
     (by decide) (by decide) (by decide) (by decide)⟩

/-! ### Overlap map (C2) and travel-time default (C3) -/

theorem innerSweep_eq (sm : Int → Service) (bays : List Bay) (buffer : Int)
    (a : Flight) (ae : Int) (hae : latestServiceEnd sm a = some ae) :
    ∀ (t : List Flight) (l : List String),
      innerSweep sm bays buffer a ae t = some l →
      l = (t.takeWhile fun b => (conflictCond sm bays buffer a b).getD false).map
            fun b => b.number := by
  intro t
  induction t with
  | nil =>
    intro l hl
    cases hl
    rfl
  | cons b t ih =>
    intro l hl
    cases hbs : earliestServiceStart sm b with
    | none =>
      have hstep : innerSweep sm bays buffer a ae (b :: t) = none := by
        rw [innerSweep, hbs]
      rw [hstep] at hl
      cases hl
    | some bs =>
      have hstep : innerSweep sm bays buffer a ae (b :: t)
          = if ae + requiredGap bays buffer a b > bs then
              (innerSweep sm bays buffer a ae t).map (fun l => b.number :: l)
            else some [] := by
        rw [innerSweep, hbs]
      rw [hstep] at hl
      have hcc : conflictCond sm bays buffer a b
          = some (decide (ae + requiredGap bays buffer a b > bs)) := by
        rw [conflictCond, hae, hbs]
      rw [List.takeWhile_cons, hcc]
      by_cases hcond : ae + requiredGap bays buffer a b > bs
      · rw [if_pos hcond] at hl
        obtain ⟨l0, hl0, hleq⟩ := Option.map_eq_some'.mp hl
        rw [← hleq, ih l0 hl0]
        simp [hcond]
      · rw [if_neg hcond] at hl
        cases hl
        simp [hcond]

theorem sweep_characterization (sm : Int → Service) (bays : List Bay)
    (buffer : Int) :
    ∀ (s : List Flight) (m : List (String × List String)),
      sweep sm bays buffer s = some m →
      m.length = s.length ∧
      ∀ (i : Nat) (a : Flight), s[i]? = some a →
        m[i]? = some (a.number,
          ((s.drop (i + 1)).takeWhile fun b =>
            (conflictCond sm bays buffer a b).getD false).map fun b => b.number) := by
  intro s
  induction s with
  | nil =>
    intro m hm
    cases hm
    refine ⟨rfl, fun i a h => ?_⟩
    rw [List.getElem?_nil] at h
    cases h
  | cons a rest ih =>
    intro m hm
    cases hae : latestServiceEnd sm a with
    | none =>
      have hstep : sweep sm bays buffer (a :: rest) = none := by
        simp only [sweep, hae]
      rw [hstep] at hm
      cases hm
    | some ae =>
      cases hinner : innerSweep sm bays buffer a ae rest with
      | none =>
        have hstep : sweep sm bays buffer (a :: rest) = none := by
          simp only [sweep, hae, hinner]
        rw [hstep] at hm
        cases hm
      | some l =>
        cases hrest : sweep sm bays buffer rest with
        | none =>
          have hstep : sweep sm bays buffer (a :: rest) = none := by
            simp only [sweep, hae, hinner, hrest]
          rw [hstep] at hm
          cases hm
        | some m2 =>
          have hstep : sweep sm bays buffer (a :: rest)
              = some ((a.number, l) :: m2) := by
            simp only [sweep, hae, hinner, hrest]
          rw [hstep] at hm
          cases hm
          obtain ⟨hlen, hidx⟩ := ih m2 hrest
          refine ⟨by simp [hlen], ?_⟩
          intro i x hx
          cases i with
          | zero =>
            rw [List.getElem?_cons_zero] at hx
            cases hx
            rw [List.getElem?_cons_zero]
            have hinn := innerSweep_eq sm bays buffer a ae hae rest l hinner
            rw [show ((a :: rest).drop 1) = rest from rfl, ← hinn]
          | succ n =>
            rw [List.getElem?_cons_succ] at hx
            rw [List.getElem?_cons_succ]
            rw [hidx n x hx]
            rfl

/-- **C2 (amended)**: the overlap map built by `get_overlapping_flights_map`
pairs each flight `A` of the arrival-sorted order with exactly the *longest
prefix* of its successors that all conflict with it — the inner scan breaks at
the first non-conflicting successor, so a conflicting flight separated from
`A` by a non-conflicting one is omitted (the map may miss pairs that can
actually conflict; see `c2_overlap_map_counterexample`). -/
theorem c2_overlap_map_takewhile (sm : Int → Service) (bays : List Bay)
    (buffer : Int) (flights : List Flight) (m : List (String × List String))
    (hrun : detectOverlaps sm bays buffer flights = some m) :
    m.length = (sortByArrival flights).length ∧
    ∀ (i : Nat) (a : Flight), (sortByArrival flights)[i]? = some a →
      m[i]? = some (a.number,
        (((sortByArrival flights).drop (i + 1)).takeWhile fun b =>
          (conflictCond sm bays buffer a b).getD false).map fun b => b.number) :=
  sweep_characterization sm bays buffer (sortByArrival flights) m hrun

/-- Witness for `c2_overlap_map_takewhile` at the three-flight instance. -/
theorem c2_overlap_map_takewhile_witness :
    ([("FA", ([] : List String)), ("FB", ["FC"]), ("FC", [])]).length
        = (sortByArrival [faC2, fbC2, fcC2]).length ∧
    ∀ (i : Nat) (a : Flight), (sortByArrival [faC2, fbC2, fcC2])[i]? = some a →
      ([("FA", ([] : List String)), ("FB", ["FC"]), ("FC", [])])[i]? = some (a.number,
        (((sortByArrival [faC2, fbC2, fcC2]).drop (i + 1)).takeWhile fun b =>
          (conflictCond smC2 baysC2 15 a b).getD false).map fun b => b.number) :=
  c2_overlap_map_takewhile smC2 baysC2 15 [faC2, fbC2, fcC2] _ (by decide)

/-- **C2 (counterexample)**: flight FC arrives after FA and satisfies the
stated conflict condition against FA (`latest_end(FA) = 360 > 285 =
earliest_start(FC)` with required gap 0), yet the produced overlap map pairs
FA with the empty list — the early `break` at non-conflicting FB hides the
FA→FC conflict, so the map is not complete for the stated condition. -/
theorem c2_overlap_map_counterexample :
    faC2.arrivalTime ≤ fcC2.arrivalTime ∧
    conflictCond smC2 baysC2 15 faC2 fcC2 = some true ∧
    detectOverlaps smC2 baysC2 15 [faC2, fbC2, fcC2]
      = some [("FA", []), ("FB", ["FC"]), ("FC", [])] ∧
    (∀ e ∈ [("FA", ([] : List String)), ("FB", ["FC"]), ("FC", [])],
      e.1 = "FA" → "FC" ∉ e.2) :=
  ⟨by decide, by decide, by decide, by decide⟩

/-- **C3**: evaluation at the failing input — the travel-time lookup for the
bay pair `("A1", "B1")`, which has no entry, returns `0` rather than the
configured default travel time (`Settings.default_travel_time = 5`, documented
as the fallback but never consulted); a present entry is returned as stored. -/
theorem c3_travel_default_not_used :
    travelTimeLookup baysC3 "A1" "B1" = 0 ∧
    travelTimeLookup baysC3 "A1" "A2" = 7 ∧
    defaultSettings.defaultTravelTime = 5 ∧
    travelTimeLookup baysC3 "A1" "B1" ≠ defaultSettings.defaultTravelTime :=
  ⟨by decide, by decide, by decide, by decide⟩

end GroundMaster
